import Mathlib

/-!
Shallow embedding of the fintopy price-series accessor
(src/fintopy/prices.py, class PricesSeriesAccessor).

Modelling choices:
* A pandas Series of prices is a list of (key, value) pairs.  Keys are the
  dates of the DatetimeIndex, modelled at day resolution as integers, so the
  Timedelta expression (index[-1] - index[0]).days is the plain integer
  difference of the keys.
* Float values are modelled as exact rationals; NaN is modelled as none in
  Val := Option Rat.  A raw input series may contain NaN; a validated series
  cannot, because NaN > 0 is false, which makes (series > 0).all() false.
* The pandas check series.index.inferred_type != datetime64 is modelled by
  the Boolean field indexIsDatetime of the raw series (for a DatetimeIndex
  the attribute is the constant string datetime64).
* sort_index is modelled by insertion sort on the key; the index is unique
  after validation, so stability is irrelevant.
* cagr uses a real-valued power with a fractional exponent, hence it is the
  single definition stated over ℝ (Real.rpow); everything else is exact
  rational arithmetic and computable.
-/

namespace Fintopy

/-- A float value of the host library: `none` models NaN. -/
abbrev Val := Option ℚ

/-- The two exception kinds raised by `PricesSeriesAccessor._validate`. -/
inductive PdError
  | typeError
  | valueError
deriving DecidableEq

/-- The raw series handed to the accessor constructor: an index-dtype flag
(whether `index.inferred_type` is `datetime64`) and the (key, value) rows. -/
structure RawSeries where
  indexIsDatetime : Bool
  entries : List (Int × Val)

/-- A validated, stored price series (`self._series`): NaN-free rows. -/
abbrev Stored := List (Int × ℚ)

/-- The index keys of a series. -/
def keys {α : Type} (l : List (Int × α)) : List Int := l.map Prod.fst

/-- The elementwise comparison `value > 0` of the host library: NaN compares
false. -/
def gtZero : Val → Bool
  | none => false
  | some q => decide (0 < q)

/-- PricesSeriesAccessor._validate: TypeError if the index is not
datetime-typed, ValueError if the index has duplicates, ValueError if
`(series > 0).all()` is false. -/
def validate (s : RawSeries) : Except PdError Unit :=
  if s.indexIsDatetime = false then .error .typeError
  else if ¬ (keys s.entries).Nodup then .error .valueError
  else if ¬ (∀ e ∈ s.entries, gtZero e.2 = true) then .error .valueError
  else .ok ()

/-- Forgets the NaN tag on values.  A validated series has no NaN, so on the
rows that reach storage this is the identity on content. -/
def stripNA (l : List (Int × Val)) : Stored :=
  l.filterMap fun e => e.2.map fun q => (e.1, q)

/-- Key order on rows, for `sort_index`. -/
def keyLE (a b : Int × ℚ) : Prop := a.1 ≤ b.1

instance : DecidableRel keyLE := fun a b => inferInstanceAs (Decidable (a.1 ≤ b.1))

instance : IsTotal (Int × ℚ) keyLE := ⟨fun a b => le_total a.1 b.1⟩

instance : IsTrans (Int × ℚ) keyLE := ⟨fun _ _ _ h h2 => le_trans h h2⟩

/-- Series.sort_index: sort the rows ascending by key. -/
def sortByKey (l : Stored) : Stored := List.insertionSort keyLE l

/-- PricesSeriesAccessor.__init__: validate, then store the key-sorted
series. -/
def construct (s : RawSeries) : Except PdError Stored :=
  match validate s with
  | .error e => .error e
  | .ok _ => .ok (sortByKey (stripNA s.entries))

/-- Value of `iloc[0]` / `iat[0]` (the source raises on an empty series;
the default is never reached under the nonempty hypotheses used below). -/
def firstVal (S : Stored) : ℚ := ((S.head?).map Prod.snd).getD 0

/-- Value of `iat[-1]`. -/
def lastVal (S : Stored) : ℚ := ((S.getLast?).map Prod.snd).getD 0

/-- Key of `index[0]`. -/
def firstKey (S : Stored) : Int := ((S.head?).map Prod.fst).getD 0

/-- Key of `index[-1]`. -/
def lastKey (S : Stored) : Int := ((S.getLast?).map Prod.fst).getD 0

/-- The day count `(index[-1] - index[0]).days`. -/
def daysBetween (S : Stored) : Int := lastKey S - firstKey S

/-- PricesSeriesAccessor.rebase: `series.divide(series.iloc[0]).multiply(base)`. -/
def rebase (base : ℚ) (S : Stored) : Stored :=
  S.map fun e => (e.1, e.2 / firstVal S * base)

/-- Series.pct_change(period) on a NaN-free series: row `i` keeps its key and
gets value `v i / v (i - period) - 1`, or NaN for the first `period` rows. -/
def pctChange (period : Nat) (S : Stored) : List (Int × Val) :=
  List.zipWith
    (fun e i =>
      (e.1, if period ≤ i then (S.get? (i - period)).map fun p => e.2 / p.2 - 1 else none))
    S (List.range S.length)

/-- Series.dropna: drop the NaN rows. -/
def dropNA (l : List (Int × Val)) : List (Int × Val) :=
  l.filter fun e => e.2.isSome

/-- PricesSeriesAccessor.pct_returns. -/
def pct_returns (period : Nat) (dropna : Bool) (S : Stored) : List (Int × Val) :=
  if dropna then dropNA (pctChange period S) else pctChange period S

/-- PricesSeriesAccessor.abs_return: `iat[-1] / iat[0] - 1`. -/
def abs_return (S : Stored) : ℚ := lastVal S / firstVal S - 1

/-- PricesSeriesAccessor.annualized_return:
`abs_return() * base / (index[-1] - index[0]).days`. -/
def annualized_return (base : ℚ) (S : Stored) : ℚ :=
  abs_return S * base / (daysBetween S : ℚ)

/-- PricesSeriesAccessor.cagr:
`(1 + abs_return()) ** (base / (index[-1] - index[0]).days) - 1`.
Python ** on floats with a fractional exponent is the real power. -/
noncomputable def cagr (base : ℚ) (S : Stored) : ℝ :=
  Real.rpow (1 + (abs_return S : ℝ)) ((base : ℝ) / ((daysBetween S : Int) : ℝ)) - 1

/-- Series.cummax continued with running maximum `m` so far. -/
def cummaxFrom (m : ℚ) : Stored → Stored
  | [] => []
  | e :: rest => (e.1, max m e.2) :: cummaxFrom (max m e.2) rest

/-- Series.cummax (a validated series is NaN-free, so skipna is moot). -/
def cummax : Stored → Stored
  | [] => []
  | e :: rest => (e.1, e.2) :: cummaxFrom e.2 rest

/-- Series.sub on two series over the same index (aligned positionally). -/
def seriesSub (a b : Stored) : Stored :=
  List.zipWith (fun x y => (x.1, x.2 - y.2)) a b

/-- Series.div on two series over the same index (aligned positionally). -/
def seriesDiv (a b : Stored) : Stored :=
  List.zipWith (fun x y => (x.1, x.2 / y.2)) a b

/-- Series.mul by a scalar. -/
def seriesMulScalar (a : Stored) (c : ℚ) : Stored :=
  a.map fun x => (x.1, x.2 * c)

/-- PricesSeriesAccessor.drawdown:
`cummax().sub(series).div(cummax())`, multiplied by -1 when negative. -/
def drawdown (negative : Bool) (S : Stored) : Stored :=
  if negative then seriesMulScalar (seriesDiv (seriesSub (cummax S) S) (cummax S)) (-1)
  else seriesDiv (seriesSub (cummax S) S) (cummax S)

/-- The list of values of a series. -/
def seriesVals (S : Stored) : List ℚ := S.map Prod.snd

/-- Series.max of a nonempty series (the source's NaN on an empty series is
outside the nonempty hypotheses used below). -/
def listMax : List ℚ → ℚ
  | [] => 0
  | x :: xs => xs.foldl max x

/-- Series.min of a nonempty series. -/
def listMin : List ℚ → ℚ
  | [] => 0
  | x :: xs => xs.foldl min x

/-- PricesSeriesAccessor.max_drawdown: max of `drawdown()`, or min of
`drawdown(negative=True)` when negative. -/
def max_drawdown (negative : Bool) (S : Stored) : ℚ :=
  if negative then listMin (seriesVals (drawdown true S))
  else listMax (seriesVals (drawdown false S))

/-- Specification-side running maximum of the first `i + 1` values. -/
def prefixMax : List ℚ → Nat → ℚ
  | [], _ => 0
  | x :: _, 0 => x
  | x :: xs, i + 1 => max x (prefixMax xs i)

/-- All prices of a stored series are strictly positive (the invariant
construction establishes). -/
abbrev Valid (S : Stored) : Prop := ∀ e ∈ S, 0 < e.2

/-- A concrete valid stored series used by the spec examples for drawdown. -/
def exDrawdown : Stored := [(0, 100), (1, 80), (2, 120)]

lemma foldl_max_hoist (a b : ℚ) (l : List ℚ) :
    l.foldl max (max a b) = max a (l.foldl max b) := by
  induction l generalizing b with
  | nil => rfl
  | cons x xs ih => rw [List.foldl_cons, List.foldl_cons, max_assoc, ih]

lemma le_foldl_max (b : ℚ) (l : List ℚ) : b ≤ l.foldl max b := by
  induction l generalizing b with
  | nil => exact le_refl b
  | cons x xs ih => exact le_trans (le_max_left b x) (ih (max b x))

lemma foldl_min_neg (a : ℚ) (l : List ℚ) :
    (l.map fun x => -x).foldl min (-a) = -(l.foldl max a) := by
  induction l generalizing a with
  | nil => rfl
  | cons x xs ih => rw [List.map_cons, List.foldl_cons, List.foldl_cons, min_neg_neg, ih]

lemma listMin_map_neg (l : List ℚ) : listMin (l.map fun x => -x) = -(listMax l) := by
  cases l with
  | nil => simp [listMin, listMax]
  | cons x xs => exact foldl_min_neg x xs

lemma cummaxFrom_length (m : ℚ) (l : Stored) : (cummaxFrom m l).length = l.length := by
  induction l generalizing m with
  | nil => rfl
  | cons e rest ih => simp [cummaxFrom, ih]

lemma cummax_length (S : Stored) : (cummax S).length = S.length := by
  cases S with
  | nil => rfl
  | cons e rest => simp [cummax, cummaxFrom_length]

lemma cummaxFrom_get (m : ℚ) (l : Stored) (i : Nat) (h : i < l.length)
    (h2 : i < (cummaxFrom m l).length) :
    (cummaxFrom m l).get ⟨i, h2⟩ =
      ((l.get ⟨i, h⟩).1, max m (prefixMax (seriesVals l) i)) := by
  induction l generalizing m i with
  | nil => exact absurd h (Nat.not_lt_zero i)
  | cons e rest ih =>
    cases i with
    | zero => simp [cummaxFrom, seriesVals, prefixMax]
    | succ i =>
      have hi : i < rest.length := Nat.lt_of_succ_lt_succ h
      have hi2 : i < (cummaxFrom (max m e.2) rest).length := by
        rw [cummaxFrom_length]; exact hi
      simpa [cummaxFrom, seriesVals, prefixMax, max_assoc] using ih (max m e.2) i hi hi2

lemma cummax_get (S : Stored) (i : Nat) (h : i < S.length)
    (h2 : i < (cummax S).length) :
    (cummax S).get ⟨i, h2⟩ = ((S.get ⟨i, h⟩).1, prefixMax (seriesVals S) i) := by
  cases S with
  | nil => exact absurd h (Nat.not_lt_zero i)
  | cons e rest =>
    cases i with
    | zero => simp [cummax, seriesVals, prefixMax]
    | succ i =>
      have hi : i < rest.length := Nat.lt_of_succ_lt_succ h
      have hi2 : i < (cummaxFrom e.2 rest).length := by
        rw [cummaxFrom_length]; exact hi
      simpa [cummax, seriesVals, prefixMax] using cummaxFrom_get e.2 rest i hi hi2

lemma drawdown_false_def (S : Stored) :
    drawdown false S = seriesDiv (seriesSub (cummax S) S) (cummax S) := rfl

lemma drawdown_true_def (S : Stored) :
    drawdown true S =
      seriesMulScalar (seriesDiv (seriesSub (cummax S) S) (cummax S)) (-1) := rfl

lemma drawdown_false_length (S : Stored) : (drawdown false S).length = S.length := by
  simp [drawdown_false_def, seriesDiv, seriesSub, cummax_length]

lemma drawdown_false_get (S : Stored) (i : Nat) (h : i < S.length)
    (h2 : i < (drawdown false S).length) :
    (drawdown false S).get ⟨i, h2⟩ =
      ((S.get ⟨i, h⟩).1,
        (prefixMax (seriesVals S) i - (S.get ⟨i, h⟩).2) / prefixMax (seriesVals S) i) := by
  have hc : i < (cummax S).length := by rw [cummax_length]; exact h
  simp only [drawdown_false_def, seriesDiv, seriesSub] at h2 ⊢
  rw [List.get_zipWith, List.get_zipWith, cummax_get S i h]

lemma drawdown_neg_eq (S : Stored) :
    drawdown true S = (drawdown false S).map fun e => (e.1, -e.2) := by
  simp [drawdown, seriesMulScalar, mul_neg_one]

lemma seriesVals_map_negPair (l : Stored) :
    seriesVals (l.map fun e => (e.1, -e.2)) = (seriesVals l).map fun x => -x := by
  simp [seriesVals]

lemma get_le_prefixMax (l : List ℚ) (i : Nat) (h : i < l.length) :
    l.get ⟨i, h⟩ ≤ prefixMax l i := by
  induction l generalizing i with
  | nil => exact absurd h (Nat.not_lt_zero i)
  | cons x xs ih =>
    cases i with
    | zero => exact le_refl x
    | succ i =>
      have hi : i < xs.length := Nat.lt_of_succ_lt_succ h
      exact le_trans (ih i hi) (le_max_right _ _)

lemma prefixMax_pos (l : List ℚ) (hl : ∀ x ∈ l, 0 < x) (i : Nat) (h : i < l.length) :
    0 < prefixMax l i := by
  induction l generalizing i with
  | nil => exact absurd h (Nat.not_lt_zero i)
  | cons x xs ih =>
    cases i with
    | zero => exact hl x (List.mem_cons_self x xs)
    | succ i => exact lt_max_iff.mpr (Or.inl (hl x (List.mem_cons_self x xs)))

lemma valid_vals_pos {S : Stored} (hV : Valid S) : ∀ x ∈ seriesVals S, 0 < x := by
  intro x hx
  rcases List.mem_map.mp hx with ⟨e, he, hex⟩
  exact hex ▸ hV e he

lemma drawdown_false_bounds {S : Stored} (hV : Valid S) :
    ∀ e ∈ drawdown false S, 0 ≤ e.2 ∧ e.2 ≤ 1 := by
  intro e he
  rcases List.mem_iff_get.mp he with ⟨⟨i, hi⟩, hget⟩
  have h : i < S.length := by rw [← drawdown_false_length S]; exact hi
  rw [drawdown_false_get S i h hi] at hget
  have hM : 0 < prefixMax (seriesVals S) i := by
    refine prefixMax_pos _ (valid_vals_pos hV) i ?_
    simpa [seriesVals] using h
  have hvM : (S.get ⟨i, h⟩).2 ≤ prefixMax (seriesVals S) i := by
    have hvs : i < (seriesVals S).length := by simpa [seriesVals] using h
    have := get_le_prefixMax (seriesVals S) i hvs
    simpa [seriesVals] using this
  have hv : 0 < (S.get ⟨i, h⟩).2 := hV _ (List.get_mem S i h)
  constructor
  · rw [← hget]
    exact div_nonneg (sub_nonneg.mpr hvM) (le_of_lt hM)
  · rw [← hget]
    exact (div_le_one hM).mpr (by linarith)

/-- Claim C1: construction raises TypeError for a non-datetime index,
ValueError for a duplicated index, ValueError for a non-positive price, and
succeeds when the index is datetime-typed and unique and every value is
strictly positive. -/
theorem C1_construct_validation (s : RawSeries) :
    (s.indexIsDatetime = false → construct s = .error .typeError) ∧
    (s.indexIsDatetime = true → ¬ (keys s.entries).Nodup →
      construct s = .error .valueError) ∧
    (s.indexIsDatetime = true → (keys s.entries).Nodup →
      ¬ (∀ e ∈ s.entries, gtZero e.2 = true) → construct s = .error .valueError) ∧
    (s.indexIsDatetime = true → (keys s.entries).Nodup →
      (∀ e ∈ s.entries, gtZero e.2 = true) → ∃ S, construct s = .ok S) := by
  unfold construct validate
  refine ⟨fun h1 => ?_, fun h1 h2 => ?_, fun h1 h2 h3 => ?_, fun h1 h2 h3 => ?_⟩ <;>
    split_ifs <;> simp_all

/-- Witness for C1: a concrete instance of each of the four cases. -/
theorem C1_construct_validation_witness :
    construct ⟨false, [(0, some 1)]⟩ = .error .typeError ∧
    construct ⟨true, [(0, some 1), (0, some 2)]⟩ = .error .valueError ∧
    construct ⟨true, [(0, some 1), (1, some 0)]⟩ = .error .valueError ∧
    (∃ S, construct ⟨true, [(1, some 2), (0, some 1)]⟩ = .ok S) :=
  ⟨(C1_construct_validation ⟨false, [(0, some 1)]⟩).1 rfl,
   (C1_construct_validation ⟨true, [(0, some 1), (0, some 2)]⟩).2.1 rfl (by decide),
   (C1_construct_validation ⟨true, [(0, some 1), (1, some 0)]⟩).2.2.1 rfl (by decide)
     (by decide),
   (C1_construct_validation ⟨true, [(1, some 2), (0, some 1)]⟩).2.2.2 rfl (by decide)
     (by decide)⟩

/-- Claim C2: on a valid nonempty series, drawdown(negative=False) keeps each
key and carries (running max - value) / running max, all its values lie in
[0, 1], the negative variant lies in [-1, 0]; drawdown on [100, 80, 120] is
[0, 0.2, 0] and max_drawdown is 0.2. -/
theorem C2_drawdown_formula_range (S : Stored) (hV : Valid S) (hne : S ≠ []) :
    (∀ (i : Nat) (h : i < S.length) (h2 : i < (drawdown false S).length),
      (drawdown false S).get ⟨i, h2⟩ =
        ((S.get ⟨i, h⟩).1,
          (prefixMax (seriesVals S) i - (S.get ⟨i, h⟩).2) / prefixMax (seriesVals S) i)) ∧
    (∀ e ∈ drawdown false S, 0 ≤ e.2 ∧ e.2 ≤ 1) ∧
    (∀ e ∈ drawdown true S, -1 ≤ e.2 ∧ e.2 ≤ 0) ∧
    seriesVals (drawdown false exDrawdown) = [0, 1/5, 0] ∧
    max_drawdown false exDrawdown = 1/5 := by
  refine ⟨fun i h h2 => drawdown_false_get S i h h2, drawdown_false_bounds hV, ?_,
    by norm_num [drawdown_false_def, seriesDiv, seriesSub, cummax, cummaxFrom,
      exDrawdown, seriesVals, max_def],
    by norm_num [max_drawdown, drawdown, seriesDiv, seriesSub, cummax, cummaxFrom,
      exDrawdown, seriesVals, listMax, max_def]⟩
  intro e he
  rw [drawdown_neg_eq] at he
  rcases List.mem_map.mp he with ⟨a, ha, hae⟩
  obtain ⟨h1, h2⟩ := drawdown_false_bounds hV a ha
  rw [← hae]
  exact ⟨neg_le_neg h2, neg_nonpos.mpr h1⟩

/-- Witness for C2 at the concrete series [100, 80, 120]. -/
theorem C2_drawdown_formula_range_witness :
    Valid exDrawdown ∧ exDrawdown ≠ [] ∧ max_drawdown false exDrawdown = 1/5 :=
  ⟨by decide, by decide,
    (C2_drawdown_formula_range exDrawdown (by decide) (by decide)).2.2.2.2⟩

/-- Claim C3: drawdown(negative=True) is the elementwise negation of
drawdown(negative=False), and max_drawdown(negative=True), the minimum of the
negated drawdown series, is the negation of max_drawdown(negative=False). -/
theorem C3_negative_variant (S : Stored) (hV : Valid S) (hne : S ≠ []) :
    drawdown true S = (drawdown false S).map (fun e => (e.1, -e.2)) ∧
    max_drawdown true S = - max_drawdown false S := by
  refine ⟨drawdown_neg_eq S, ?_⟩
  show listMin (seriesVals (drawdown true S)) = - listMax (seriesVals (drawdown false S))
  rw [drawdown_neg_eq, seriesVals_map_negPair, listMin_map_neg]

/-- Witness for C3 at the concrete series [100, 80, 120]. -/
theorem C3_negative_variant_witness :
    Valid exDrawdown ∧ exDrawdown ≠ [] ∧
    drawdown true exDrawdown = (drawdown false exDrawdown).map (fun e => (e.1, -e.2)) ∧
    max_drawdown true exDrawdown = - max_drawdown false exDrawdown :=
  ⟨by decide, by decide, (C3_negative_variant exDrawdown (by decide) (by decide)).1,
    (C3_negative_variant exDrawdown (by decide) (by decide)).2⟩

/-- Claim C10: on a valid nonempty series the first drawdown value is exactly
0, and max_drawdown(negative=False) is nonnegative. -/
theorem C10_first_drawdown_zero (S : Stored) (hV : Valid S) (hne : S ≠ []) :
    firstVal (drawdown false S) = 0 ∧ 0 ≤ max_drawdown false S := by
  obtain ⟨e, rest, rfl⟩ := List.exists_cons_of_ne_nil hne
  have h0 : (e.2 - e.2) / e.2 = 0 := by rw [sub_self, zero_div]
  constructor
  · simp [drawdown_false_def, seriesDiv, seriesSub, cummax, firstVal, h0]
  · show 0 ≤ listMax (seriesVals (drawdown false (e :: rest)))
    simp only [drawdown_false_def, seriesDiv, seriesSub, cummax,
      List.zipWith_cons_cons, seriesVals, List.map_cons, listMax, h0]
    exact le_foldl_max 0 _

/-- Witness for C10 at the concrete series [100, 80, 120]. -/
theorem C10_first_drawdown_zero_witness :
    Valid exDrawdown ∧ exDrawdown ≠ [] ∧ firstVal (drawdown false exDrawdown) = 0 ∧
      0 ≤ max_drawdown false exDrawdown :=
  ⟨by decide, by decide, (C10_first_drawdown_zero exDrawdown (by decide) (by decide)).1,
    (C10_first_drawdown_zero exDrawdown (by decide) (by decide)).2⟩

/-- Strict key order on rows. -/
def keyLT (a b : Int × ℚ) : Prop := a.1 < b.1

lemma validate_ok (s : RawSeries) (h : validate s = .ok ()) :
    s.indexIsDatetime = true ∧ (keys s.entries).Nodup ∧
      ∀ e ∈ s.entries, gtZero e.2 = true := by
  unfold validate at h
  split_ifs at h with h1 h2 h3
  all_goals first
    | exact Except.noConfusion h
    | exact ⟨by simpa using h1, h2, h3⟩

lemma construct_ok {s : RawSeries} {S : Stored} (h : construct s = .ok S) :
    validate s = .ok () ∧ S = sortByKey (stripNA s.entries) := by
  unfold construct at h
  cases hv : validate s with
  | error e => rw [hv] at h; cases h
  | ok u => cases u; rw [hv] at h; cases h; exact ⟨rfl, rfl⟩

lemma sortByKey_sorted (l : Stored) : List.Sorted keyLE (sortByKey l) :=
  List.sorted_insertionSort keyLE l

lemma sortByKey_perm (l : Stored) : List.Perm (sortByKey l) l :=
  List.perm_insertionSort keyLE l

lemma keys_stripNA_sublist (l : List (Int × Val)) :
    (keys (stripNA l)).Sublist (keys l) := by
  induction l with
  | nil => simp [stripNA, keys]
  | cons e rest ih =>
    cases hv : e.2 with
    | none =>
      have h1 : keys (stripNA (e :: rest)) = keys (stripNA rest) := by
        simp [stripNA, keys, List.filterMap_cons, hv]
      have h2 : keys (e :: rest) = e.1 :: keys rest := by simp [keys]
      rw [h1, h2]
      exact List.Sublist.cons e.1 ih
    | some q =>
      have h1 : keys (stripNA (e :: rest)) = e.1 :: keys (stripNA rest) := by
        simp [stripNA, keys, List.filterMap_cons, hv]
      have h2 : keys (e :: rest) = e.1 :: keys rest := by simp [keys]
      rw [h1, h2]
      exact List.Sublist.cons₂ e.1 ih

lemma construct_nodup {s : RawSeries} {S : Stored} (h : construct s = .ok S) :
    (keys S).Nodup := by
  obtain ⟨hv, rfl⟩ := construct_ok h
  obtain ⟨_, hnd, _⟩ := validate_ok s hv
  have h1 : (keys (stripNA s.entries)).Nodup := (keys_stripNA_sublist s.entries).nodup hnd
  have h2 : List.Perm (keys (sortByKey (stripNA s.entries))) (keys (stripNA s.entries)) :=
    (sortByKey_perm (stripNA s.entries)).map Prod.fst
  exact h2.nodup_iff.mpr h1

lemma pairwise_lt_of_le_ne {l : Stored} (hle : List.Pairwise keyLE l)
    (hne : List.Pairwise (fun a b : Int × ℚ => a.1 ≠ b.1) l) :
    List.Pairwise keyLT l := by
  induction l with
  | nil => exact List.Pairwise.nil
  | cons x xs ih =>
    rcases List.pairwise_cons.mp hle with ⟨h1, h2⟩
    rcases List.pairwise_cons.mp hne with ⟨h3, h4⟩
    exact List.pairwise_cons.mpr ⟨fun b hb => lt_of_le_of_ne (h1 b hb) (h3 b hb), ih h2 h4⟩

lemma construct_sorted_le {s : RawSeries} {S : Stored} (h : construct s = .ok S) :
    List.Sorted keyLE S := by
  obtain ⟨_, rfl⟩ := construct_ok h
  exact sortByKey_sorted _

lemma construct_sorted_lt {s : RawSeries} {S : Stored} (h : construct s = .ok S) :
    List.Sorted keyLT S := by
  have hnd : List.Pairwise (fun a b : Int × ℚ => a.1 ≠ b.1) S :=
    List.pairwise_map.mp (construct_nodup h)
  exact pairwise_lt_of_le_ne (construct_sorted_le h) hnd

lemma stripNA_pos {l : List (Int × Val)} (hall : ∀ e ∈ l, gtZero e.2 = true) :
    ∀ e ∈ stripNA l, 0 < e.2 := by
  intro e he
  rcases List.mem_filterMap.mp he with ⟨a, ha, hfa⟩
  cases hv : a.2 with
  | none => rw [hv] at hfa; cases hfa
  | some q =>
    rw [hv] at hfa
    injection hfa with hfa
    have hgt := hall a ha
    rw [hv] at hgt
    rw [← hfa]
    simpa [gtZero] using hgt

lemma construct_valid {s : RawSeries} {S : Stored} (h : construct s = .ok S) :
    Valid S := by
  obtain ⟨hv, rfl⟩ := construct_ok h
  obtain ⟨_, _, hall⟩ := validate_ok s hv
  intro e he
  exact stripNA_pos hall e ((sortByKey_perm _).mem_iff.mp he)

lemma sorted_first_le {S : Stored} (hs : List.Sorted keyLE S) :
    ∀ e ∈ S, firstKey S ≤ e.1 := by
  intro e he
  cases S with
  | nil => cases he
  | cons x xs =>
    rcases List.mem_cons.mp he with rfl | h
    · simp [firstKey]
    · have := (List.pairwise_cons.mp hs).1 e h
      simpa [firstKey] using this

lemma sorted_le_lastKey {S : Stored} (hs : List.Sorted keyLE S) :
    ∀ e ∈ S, e.1 ≤ lastKey S := by
  induction S with
  | nil => intro e he; cases he
  | cons x xs ih =>
    intro e he
    rcases List.pairwise_cons.mp hs with ⟨hx, hxs⟩
    cases xs with
    | nil =>
      rcases List.mem_singleton.mp he with rfl
      simp [lastKey]
    | cons y ys =>
      have hlast : lastKey (x :: y :: ys) = lastKey (y :: ys) := by
        simp [lastKey, List.getLast?_cons_cons]
      rcases List.mem_cons.mp he with rfl | h
      · rw [hlast]
        exact le_trans (hx y (List.mem_cons_self y ys)) (ih hxs y (List.mem_cons_self y ys))
      · rw [hlast]
        exact ih hxs e h

lemma sorted_first_lt_last {S : Stored} (hs : List.Sorted keyLT S) (h2 : 2 ≤ S.length) :
    firstKey S < lastKey S := by
  cases S with
  | nil => simp at h2
  | cons x xs =>
    cases xs with
    | nil => simp at h2
    | cons y ys =>
      rcases List.pairwise_cons.mp hs with ⟨hx, hxs⟩
      have h1 : x.1 < y.1 := hx y (List.mem_cons_self y ys)
      have hle : List.Sorted keyLE (y :: ys) := hxs.imp fun h => le_of_lt h
      have h3 : y.1 ≤ lastKey (y :: ys) :=
        sorted_le_lastKey hle y (List.mem_cons_self y ys)
      have hlast : lastKey (x :: y :: ys) = lastKey (y :: ys) := by
        simp [lastKey, List.getLast?_cons_cons]
      have hfirst : firstKey (x :: y :: ys) = x.1 := by simp [firstKey]
      rw [hlast, hfirst]
      exact lt_of_lt_of_le h1 h3

/-- Claim C8: after a successful construction the stored series is sorted
ascending by key (strictly, since keys are unique), and it is a permutation
of the input rows, so storing is a sorted copy.  Every exposed operation of
the embedding is a pure function of the stored list, mirroring the source,
whose methods only call pandas operations that return new objects and never
reassign the stored series. -/
theorem C8_stored_sorted (s : RawSeries) (S : Stored) (h : construct s = .ok S) :
    List.Sorted keyLT S ∧ List.Perm S (stripNA s.entries) := by
  obtain ⟨_, hS⟩ := construct_ok h
  exact ⟨construct_sorted_lt h, hS ▸ sortByKey_perm _⟩

/-- Witness for C8 at an out-of-order input. -/
theorem C8_stored_sorted_witness :
    construct ⟨true, [(2, some 1), (0, some 3), (1, some 2)]⟩ =
      .ok [(0, 3), (1, 2), (2, 1)] ∧
    List.Sorted keyLT [((0 : Int), (3 : ℚ)), (1, 2), (2, 1)] ∧
    List.Perm [((0 : Int), (3 : ℚ)), (1, 2), (2, 1)]
      (stripNA [(2, some 1), (0, some 3), (1, some 2)]) :=
  by
  have h := C8_stored_sorted ⟨true, [(2, some 1), (0, some 3), (1, some 2)]⟩
    [(0, 3), (1, 2), (2, 1)] rfl
  exact ⟨rfl, h.1, h.2⟩

/-- Claim C4: on a validly constructed nonempty accessor, abs_return is
last value / first value - 1, where first and last are taken in ascending
key order (the first key is minimal, the last maximal); on [10, 20] it is 1. -/
theorem C4_abs_return (s : RawSeries) (S : Stored) (h : construct s = .ok S)
    (hne : S ≠ []) :
    abs_return S = lastVal S / firstVal S - 1 ∧
    (∀ e ∈ S, firstKey S ≤ e.1 ∧ e.1 ≤ lastKey S) ∧
    (∃ T, construct ⟨true, [(1, some 20), (0, some 10)]⟩ = .ok T ∧ abs_return T = 1) := by
  refine ⟨rfl, fun e he => ⟨sorted_first_le (construct_sorted_le h) e he,
    sorted_le_lastKey (construct_sorted_le h) e he⟩, ⟨[(0, 10), (1, 20)], rfl, ?_⟩⟩
  norm_num [abs_return, lastVal, firstVal]

/-- Witness for C4 at the out-of-order raw series with values 20 and 10. -/
theorem C4_abs_return_witness :
    abs_return [((0 : Int), (10 : ℚ)), (1, 20)] =
      lastVal [((0 : Int), (10 : ℚ)), (1, 20)] / firstVal [((0 : Int), (10 : ℚ)), (1, 20)] - 1 ∧
    (∀ e ∈ ([(0, 10), (1, 20)] : Stored),
      firstKey [((0 : Int), (10 : ℚ)), (1, 20)] ≤ e.1 ∧
        e.1 ≤ lastKey [((0 : Int), (10 : ℚ)), (1, 20)]) :=
  ⟨(C4_abs_return ⟨true, [(1, some 20), (0, some 10)]⟩ [(0, 10), (1, 20)] rfl
      (by decide)).1,
    (C4_abs_return ⟨true, [(1, some 20), (0, some 10)]⟩ [(0, 10), (1, 20)] rfl
      (by decide)).2.1⟩

/-- Claim C5: on a validly constructed accessor with at least two rows (hence
two distinct dates, the keys being unique), the day count is positive,
annualized_return(base) is abs_return * base / days, and cagr(base) is
(1 + abs_return) ^ (base / days) - 1. -/
theorem C5_cagr_annualized (s : RawSeries) (S : Stored) (base : ℚ)
    (h : construct s = .ok S) (h2 : 2 ≤ S.length) :
    0 < daysBetween S ∧
    annualized_return base S = abs_return S * base / ((lastKey S - firstKey S : Int) : ℚ) ∧
    cagr base S =
      Real.rpow (1 + (abs_return S : ℝ)) ((base : ℝ) / ((lastKey S - firstKey S : Int) : ℝ)) - 1 := by
  refine ⟨?_, rfl, rfl⟩
  show (0 : Int) < lastKey S - firstKey S
  exact sub_pos.mpr (sorted_first_lt_last (construct_sorted_lt h) h2)

/-- Witness for C5 on a two-row series 365 days apart. -/
theorem C5_cagr_annualized_witness :
    0 < daysBetween [((0 : Int), (10 : ℚ)), (365, 11)] ∧
    annualized_return 365 [((0 : Int), (10 : ℚ)), (365, 11)] =
      abs_return [((0 : Int), (10 : ℚ)), (365, 11)] * 365 /
        ((lastKey [((0 : Int), (10 : ℚ)), (365, 11)] -
          firstKey [((0 : Int), (10 : ℚ)), (365, 11)] : Int) : ℚ) ∧
    cagr 365 [((0 : Int), (10 : ℚ)), (365, 11)] =
      Real.rpow (1 + (abs_return [((0 : Int), (10 : ℚ)), (365, 11)] : ℝ))
        ((365 : ℝ) / ((lastKey [((0 : Int), (10 : ℚ)), (365, 11)] -
          firstKey [((0 : Int), (10 : ℚ)), (365, 11)] : Int) : ℝ)) - 1 :=
  C5_cagr_annualized ⟨true, [(0, some 10), (365, some 11)]⟩ [(0, 10), (365, 11)] 365
    rfl (by decide)

/-- A concrete valid stored series used by the spec examples for rebase and
pct_returns. -/
def exRebase : Stored := [(0, 10), (1, 20), (2, 40)]

/-- Claim C6: on a valid nonempty series, rebase(base) keeps each key and
maps each value v to v / first * base, the first value of the result is
base, and rebase(100) on [10, 20, 40] is [100, 200, 400]. -/
theorem C6_rebase (S : Stored) (base : ℚ) (hV : Valid S) (hne : S ≠ []) :
    (∀ (i : Nat) (h : i < S.length) (h2 : i < (rebase base S).length),
      (rebase base S).get ⟨i, h2⟩ =
        ((S.get ⟨i, h⟩).1, (S.get ⟨i, h⟩).2 / firstVal S * base)) ∧
    firstVal (rebase base S) = base ∧
    rebase 100 exRebase = [(0, 100), (1, 200), (2, 400)] := by
  refine ⟨?_, ?_, ?_⟩
  · intro i h h2
    simp [rebase]
  · obtain ⟨e, rest, rfl⟩ := List.exists_cons_of_ne_nil hne
    have he : (0 : ℚ) < e.2 := hV e (List.mem_cons_self e rest)
    simp [rebase, firstVal, div_self (ne_of_gt he)]
  · norm_num [rebase, exRebase, firstVal]

/-- Witness for C6 at the concrete series [10, 20, 40] with base 100. -/
theorem C6_rebase_witness :
    Valid exRebase ∧ exRebase ≠ [] ∧ firstVal (rebase 100 exRebase) = 100 ∧
      rebase 100 exRebase = [(0, 100), (1, 200), (2, 400)] := by
  have h := C6_rebase exRebase 100 (by decide) (by decide)
  exact ⟨by decide, by decide, h.2.1, h.2.2⟩

/-- Claim C7: pct_returns computes the period-wise percentage change (keyed
row i carries v i / v (i - period) - 1, with NaN on the first period rows),
dropna drops the NaN rows, and pct_returns(dropna=True) on [10, 20, 40] is
[1.0, 1.0] with no missing entries. -/
theorem C7_pct_returns_spec (S : Stored) (period : Nat) :
    (∀ (i : Nat) (h : i < S.length) (h2 : i < (pctChange period S).length)
        (h3 : i - period < S.length), period ≤ i →
      (pctChange period S).get ⟨i, h2⟩ =
        ((S.get ⟨i, h⟩).1, some ((S.get ⟨i, h⟩).2 / (S.get ⟨i - period, h3⟩).2 - 1))) ∧
    (∀ (i : Nat) (h : i < S.length) (h2 : i < (pctChange period S).length), i < period →
      (pctChange period S).get ⟨i, h2⟩ = ((S.get ⟨i, h⟩).1, none)) ∧
    pct_returns period true S = dropNA (pctChange period S) ∧
    (∀ e ∈ pct_returns period true S, e.2.isSome = true) ∧
    pct_returns 1 true exRebase = [(1, some 1), (2, some 1)] := by
  have hget : ∀ (i : Nat) (h : i < S.length) (h2 : i < (pctChange period S).length),
      (pctChange period S).get ⟨i, h2⟩ =
        ((S.get ⟨i, h⟩).1,
          if period ≤ i then (S.get? (i - period)).map (fun p => (S.get ⟨i, h⟩).2 / p.2 - 1)
          else none) := by
    intro i h h2
    simp only [pctChange] at h2 ⊢
    rw [List.get_zipWith, List.get_range]
  refine ⟨?_, ?_, rfl, ?_, ?_⟩
  · intro i h h2 h3 hpi
    rw [hget i h h2, if_pos hpi, List.get?_eq_get h3]
    rfl
  · intro i h h2 hlt
    rw [hget i h h2, if_neg (Nat.not_le.mpr hlt)]
  · intro e he
    have he2 : e ∈ List.filter (fun e => e.2.isSome) (pctChange period S) := he
    exact (List.mem_filter.mp he2).2
  · norm_num [pct_returns, dropNA, pctChange, exRebase, List.range_succ]

/-- Witness for C7 at the concrete series [10, 20, 40], period 1, row 1. -/
theorem C7_pct_returns_spec_witness :
    1 ≤ 1 ∧
    (pctChange 1 exRebase).get ⟨1, by decide⟩ =
      ((exRebase.get ⟨1, by decide⟩).1,
        some ((exRebase.get ⟨1, by decide⟩).2 / (exRebase.get ⟨0, by decide⟩).2 - 1)) ∧
    pct_returns 1 true exRebase = [(1, some 1), (2, some 1)] := by
  refine ⟨le_refl 1, ?_, (C7_pct_returns_spec exRebase 1).2.2.2.2⟩
  exact (C7_pct_returns_spec exRebase 1).1 1 (by decide) (by decide) (by decide) (le_refl 1)

/-- Claim C9: a raw series containing a NaN price fails the strictly-positive
check (NaN > 0 is false), so construction always errors, and once the index
is datetime-typed and duplicate-free the error is the ValueError of the
price check, the same as for a non-positive price. -/
theorem C9_nan_rejected (s : RawSeries) (hnan : ∃ e ∈ s.entries, e.2 = none) :
    gtZero none = false ∧
    (∃ err, construct s = .error err) ∧
    (s.indexIsDatetime = true → (keys s.entries).Nodup →
      construct s = .error .valueError) := by
  have hfail : ¬ ∀ e ∈ s.entries, gtZero e.2 = true := by
    rcases hnan with ⟨e, he, hv⟩
    intro hall
    have h := hall e he
    rw [hv] at h
    exact Bool.noConfusion h
  refine ⟨rfl, ?_, ?_⟩
  · unfold construct validate
    split_ifs with h1 h2
    · exact ⟨.typeError, rfl⟩
    · exact ⟨.valueError, rfl⟩
    · exact ⟨.valueError, rfl⟩
  · intro hflag hnodup
    unfold construct validate
    split_ifs with h1
    · rw [hflag] at h1
      exact Bool.noConfusion h1
    · rfl

/-- Witness for C9 at the concrete raw series with a NaN second price. -/
theorem C9_nan_rejected_witness :
    (∃ e ∈ ([(0, some 1), (1, none)] : List (Int × Val)), e.2 = none) ∧
    construct ⟨true, [(0, some 1), (1, none)]⟩ = .error .valueError := by
  have h := C9_nan_rejected ⟨true, [(0, some 1), (1, none)]⟩
    ⟨(1, none), by decide, rfl⟩
  exact ⟨⟨(1, none), by decide, rfl⟩, h.2.2 rfl (by decide)⟩

end Fintopy
